import Mathlib

/-!
# but_velodyne: ground map data model and the sample road detector

A shallow embedding of

* `but_velodyne/ground_map.h`: the configuration `GroundMap::Params`, the polar
  bin `GroundMap::PolarMapBin` and the region growing seed
  `GroundMap::PolarMapSeed`;
* `detectors/sample_grass_detector.cpp`: `SampleRoadDetector::detect`.

Conventions: a C++ `double` or `float` is the rational number it holds; the
ground map computes with them exactly, and the floating point operations of
`detect` that round are a parameter (`FloatArith`). An `int` is an `Int`
(wrapped to 32 bits where it is computed), `unsigned` and `uchar` are `Nat`
(reduced modulo `2^32` resp. `256` where a value is stored), and a `cv::Mat`
is its dimensions together with the element accessor.
-/

set_option autoImplicit false

namespace but_velodyne

namespace GroundMap

/-! ## Configuration parameters -/

/-- Configuration parameters, `GroundMap::Params`. -/
structure Params where
  /-- Target frame ID; empty means the frame of the input cloud. -/
  frame_id : String
  /-- Resolution of the map [m/cell]. -/
  map2d_res : ℚ
  /-- Width of the map [cells]. -/
  map2d_width : Int
  /-- Height of the map [cells]. -/
  map2d_height : Int
  /-- Minimal distance used to filter points close to the robot [m]. -/
  min_range : ℚ
  /-- The maximum radius/distance from the center [m]. -/
  max_range : ℚ
  /-- Angular resolution [degrees]. -/
  angular_res : ℚ
  /-- Radial resolution [m/cell]. -/
  radial_res : ℚ
  /-- Road irregularity threshold [m]. -/
  max_road_irregularity : ℚ

/-- Default of `map2d_res`: `return 0.05`. -/
def Params.getDefaultMapRes : ℚ := 0.05

/-- Default of `map2d_width` and `map2d_height`: `return 128`. -/
def Params.getDefaultMapSize : Int := 128

/-- Default of `min_range`: `return 1.2`. -/
def Params.getDefaultMinRange : ℚ := 1.2

/-- Default of `max_range`: `return 3.0`. -/
def Params.getDefaultMaxRange : ℚ := 3.0

/-- Default of `angular_res`: `return 5.0`. -/
def Params.getDefaultAngularRes : ℚ := 5.0

/-- Default of `radial_res`: `return 0.3`. -/
def Params.getDefaultRadialRes : ℚ := 0.3

/-- Default of `max_road_irregularity`: `return 0.03`. -/
def Params.getDefaultMaxRoadIrregularity : ℚ := 0.03

/-- The default constructor `Params::Params()` with its initialiser list. -/
def Params.new : Params where
  frame_id := ""
  map2d_res := Params.getDefaultMapRes
  map2d_width := Params.getDefaultMapSize
  map2d_height := Params.getDefaultMapSize
  min_range := Params.getDefaultMinRange
  max_range := Params.getDefaultMaxRange
  angular_res := Params.getDefaultAngularRes
  radial_res := Params.getDefaultRadialRes
  max_road_irregularity := Params.getDefaultMaxRoadIrregularity

/-! ## Polar map bins -/

/-- Region index `PolarMapBin::NOT_SET`. -/
def NOT_SET : Nat := 0

/-- Region index `PolarMapBin::FREE`. -/
def FREE : Nat := 1

/-- Region index `PolarMapBin::UNKNOWN`. -/
def UNKNOWN : Nat := 2

/-- Region index `PolarMapBin::OCCUPIED`. -/
def OCCUPIED : Nat := 3

/-- Informations accumulated for each sampling/map bin, `GroundMap::PolarMapBin`. -/
structure PolarMapBin where
  /-- Minimum height (z-coordinate). -/
  min : ℚ
  /-- Maximum height. -/
  max : ℚ
  /-- Average height. -/
  avg : ℚ
  /-- Variance of the height. -/
  var : ℚ
  /-- Average distance. -/
  dst_avg : ℚ
  /-- Variance of the distance. -/
  dst_var : ℚ
  /-- Index of the first accumulated ring. -/
  dst_ring : Int
  /-- Helper value: sum of heights. -/
  sum : ℚ
  /-- Helper value: sum of squared heights. -/
  sum_sqr : ℚ
  /-- Helper value: sum of distances. -/
  dst_sum : ℚ
  /-- Helper value: sum of squared distances. -/
  dst_sum_sqr : ℚ
  /-- Number of height samples accumulated in the bin (`unsigned`). -/
  n : Nat
  /-- Number of distance samples accumulated in the bin (`unsigned`). -/
  dst_n : Nat
  /-- Region index (`unsigned`). -/
  idx : Nat

/-- The default constructor `PolarMapBin::PolarMapBin()` with its initialiser list. -/
def PolarMapBin.new : PolarMapBin where
  min := 0.0
  max := 0.0
  avg := 0.0
  var := 0.0
  dst_avg := 0.0
  dst_var := 0.0
  dst_ring := -1
  sum := 0.0
  sum_sqr := 0.0
  dst_sum := 0.0
  dst_sum_sqr := 0.0
  n := 0
  dst_n := 0
  idx := NOT_SET

/-- Seed used in region growing, `GroundMap::PolarMapSeed`: a position in the map. -/
structure PolarMapSeed where
  /-- Angular index. -/
  ang : Int
  /-- Radial index. -/
  dist : Int
deriving DecidableEq, Repr

/-- The constructor `PolarMapSeed(int a, int d)`, which stores `ang(a), dist(d)`. -/
def PolarMapSeed.new (a d : Int) : PolarMapSeed :=
  ⟨a, d⟩

/-! ## The polar map

`ground_map.h` declares the map (`tPolarMap`, a `std::vector<PolarMapBin>`) and
the entry point `process`; their implementation file is not part of the
sources. The stages of `process` below follow the design document. -/

/-- Modelled from the spec: the polar grid `polar_map_`, "a 2D array of PolarBin
sized by (360/angular_res) × (max_range/radial_res)", one bin per
(angular index, radial index). The header only fixes the element type; the
code that addresses the vector is missing. -/
structure PolarMap where
  /-- Number of angular bins. -/
  nAng : Nat
  /-- Number of radial bins. -/
  nDist : Nat
  /-- The bin at an angular and a radial index. -/
  bins : Int → Int → PolarMapBin

/-- The position `s` names a bin of the grid. -/
def PolarMap.inGrid (nAng nDist : Nat) (s : PolarMapSeed) : Bool :=
  decide (0 ≤ s.ang) && decide (s.ang < nAng) && decide (0 ≤ s.dist) && decide (s.dist < nDist)

/-- Replaces the bin at `(ang, dist)` by `f` of it. -/
def PolarMap.update (m : PolarMap) (ang dist : Int) (f : PolarMapBin → PolarMapBin) : PolarMap :=
  { m with bins := fun a d => if a = ang ∧ d = dist then f (m.bins a d) else m.bins a d }

/-- Modelled from the spec: the grid "reset to all-unset at the start of every
frame", every bin default-constructed. The code that resets `polar_map_` is
missing. -/
def PolarMap.reset (nAng nDist : Nat) : PolarMap :=
  { nAng := nAng, nDist := nDist, bins := fun _ _ => PolarMapBin.new }

/-! ### Polar accumulation -/

/-- The fields of a `velodyne_pointcloud::PointXYZIR` the accumulation reads. -/
structure VPoint where
  /-- Coordinate x. -/
  x : ℚ
  /-- Coordinate y. -/
  y : ℚ
  /-- Coordinate z, the height. -/
  z : ℚ
  /-- Laser ring of the point. -/
  ring : Nat

/-- The functions of the C math library the accumulation calls. -/
structure MathLib where
  /-- The function `sqrt`. -/
  sqrt : ℚ → ℚ
  /-- The bearing `atan2(y, x)` in degrees, normalized to `[0, 360)`. -/
  bearing : ℚ → ℚ → ℚ

/-- Modelled from the spec: step 4 of the PolarAccumulator, "update the bin's
height accumulators with z; update distance accumulators with d; if this is the
first contribution to the bin, or rad_idx is smaller than the bin's stored
first-ring index, record it". The accumulating code is missing; the counters
are the `unsigned` fields of the header. -/
def PolarMapBin.accumulate (b : PolarMapBin) (z d : ℚ) (rad_idx : Int) : PolarMapBin :=
  { b with
    n := (b.n + 1) % 2 ^ 32
    sum := b.sum + z
    sum_sqr := b.sum_sqr + z * z
    min := if b.n = 0 then z else Min.min b.min z
    max := if b.n = 0 then z else Max.max b.max z
    dst_n := (b.dst_n + 1) % 2 ^ 32
    dst_sum := b.dst_sum + d
    dst_sum_sqr := b.dst_sum_sqr + d * d
    dst_ring := if b.dst_n = 0 ∨ rad_idx < b.dst_ring then rad_idx else b.dst_ring }

/-- Modelled from the spec: the statistics a bin "derives on demand" from its
accumulators, the average and the (population) variance of the heights and of
the distances. The code that fills `avg`, `var`, `dst_avg`, `dst_var` is
missing. -/
def PolarMapBin.computeStats (b : PolarMapBin) : PolarMapBin :=
  { b with
    avg := b.sum / b.n
    var := b.sum_sqr / b.n - (b.sum / b.n) * (b.sum / b.n)
    dst_avg := b.dst_sum / b.dst_n
    dst_var := b.dst_sum_sqr / b.dst_n - (b.dst_sum / b.dst_n) * (b.dst_sum / b.dst_n) }

/-- A bin after the points `pts` were accumulated in it, one after the other;
a point is given by its height, its planar distance and its radial index. -/
def PolarMapBin.feed (b : PolarMapBin) (pts : List (ℚ × ℚ × Int)) : PolarMapBin :=
  pts.foldl (fun b p => b.accumulate p.1 p.2.1 p.2.2) b

/-- Modelled from the spec: steps 3 and 4 of the PolarAccumulator for a point
that passed the range filter, with planar distance `d` and bearing `a`:
"ang_idx = floor(a / angular_res), rad_idx = floor(d / radial_res); discard if
rad_idx exceeds the grid's radial extent", then the bin update. The binning
code is missing. -/
def binPoint (cfg : Params) (m : PolarMap) (z d a : ℚ) : PolarMap :=
  let ang_idx : Int := ⌊a / cfg.angular_res⌋
  let rad_idx : Int := ⌊d / cfg.radial_res⌋
  if rad_idx ≥ m.nDist then m
  else m.update ang_idx rad_idx fun b => b.accumulate z d rad_idx

/-- Modelled from the spec: the PolarAccumulator for one point, steps 1 and 2:
"compute planar radial distance d = sqrt(x²+y²) and bearing angle a"; "discard
the point if d < min_range (when min_range ≥ 0) or d > max_range". The loop
body of `process` is missing. -/
def processPoint (lm : MathLib) (cfg : Params) (m : PolarMap) (p : VPoint) : PolarMap :=
  let d := lm.sqrt (p.x * p.x + p.y * p.y)
  let a := lm.bearing p.y p.x
  if (cfg.min_range ≥ 0 ∧ d < cfg.min_range) ∨ d > cfg.max_range then m
  else binPoint cfg m p.z d a

/-- Modelled from the spec: the PolarAccumulator over the points of a frame. -/
def accumulatePoints (lm : MathLib) (cfg : Params) (m : PolarMap) (pts : List VPoint) : PolarMap :=
  pts.foldl (processPoint lm cfg) m

/-! ### Ground classification -/

/-- Modelled from the spec: the two local irregularity tests of phase 1,
"height average and variance (or equivalently max−min as a cheap irregularity
proxy)". The classifying code is missing, and the design document leaves the
choice between the two open. -/
inductive Irregularity where
  | variance
  | range
deriving DecidableEq

/-- Modelled from the spec: the height variation of a bin under the chosen
test, its population variance or its range `max − min`. -/
def Irregularity.variation (irr : Irregularity) (b : PolarMapBin) : ℚ :=
  match irr with
  | .variance => b.computeStats.var
  | .range => b.max - b.min

/-- Modelled from the spec: phase 1 of the GroundClassifier on one bin with
nonzero count, "variation ≤ threshold → tentatively traversable". The
classifying code is missing. -/
def locallyTraversable (cfg : Params) (irr : Irregularity) (b : PolarMapBin) : Bool :=
  decide (b.n ≠ 0) && decide (irr.variation b ≤ cfg.max_road_irregularity)

/-- Modelled from the spec: phase 1 of the GroundClassifier, the local label of
a bin: "variation > threshold → occupied", "bins with zero count remain unset";
a tentatively traversable bin gets no label yet. -/
def localLabel (cfg : Params) (irr : Irregularity) (b : PolarMapBin) : PolarMapBin :=
  if b.n ≠ 0 ∧ irr.variation b > cfg.max_road_irregularity then { b with idx := OCCUPIED }
  else b

/-- Modelled from the spec: phase 1 over every bin of the grid. -/
def localPhase (cfg : Params) (irr : Irregularity) (m : PolarMap) : PolarMap :=
  { m with bins := fun a d =>
      if PolarMap.inGrid m.nAng m.nDist ⟨a, d⟩ then localLabel cfg irr (m.bins a d)
      else m.bins a d }

/-- Modelled from the spec: the "angular and radial neighbors (4-neighborhood in
(angle,distance) index space, angular axis wrapping at 360°)" of a bin that
lie in the grid. -/
def neighbours (nAng nDist : Nat) (s : PolarMapSeed) : List PolarMapSeed :=
  [ ⟨(s.ang + 1) % nAng, s.dist⟩, ⟨(s.ang - 1) % nAng, s.dist⟩,
    ⟨s.ang, s.dist + 1⟩, ⟨s.ang, s.dist - 1⟩ ].filter (PolarMap.inGrid nAng nDist)

/-- Writes the region index of the bin at `s`. -/
def PolarMap.setLabel (m : PolarMap) (s : PolarMapSeed) (label : Nat) : PolarMap :=
  m.update s.ang s.dist fun b => { b with idx := label }

/-- Modelled from the spec: the admission test of a neighbour, "it has nonzero
count, its own local phase produced traversable, and it has not already been
labeled". -/
def admissible (cfg : Params) (irr : Irregularity) (m : PolarMap) (s : PolarMapSeed) : Bool :=
  decide ((m.bins s.ang s.dist).n ≠ 0) && locallyTraversable cfg irr (m.bins s.ang s.dist)
    && decide ((m.bins s.ang s.dist).idx = NOT_SET)

/-- Modelled from the spec: examining the neighbours of a popped bin in turn; an
admitted neighbour is "labeled free, and enqueued". The state is the map and
the work queue. -/
def examine (cfg : Params) (irr : Irregularity) :
    List PolarMapSeed → PolarMap × List PolarMapSeed → PolarMap × List PolarMapSeed
  | [], st => st
  | nb :: nbs, (m, queue) =>
    if admissible cfg irr m nb then examine cfg irr nbs (m.setLabel nb FREE, queue ++ [nb])
    else examine cfg irr nbs (m, queue)

/-- Modelled from the spec: the growth loop, "repeatedly pop a bin and examine
its angular and radial neighbors" until the queue is empty. `fuel` bounds the
number of pops; `none` means the bound was reached with bins still queued. -/
def growLoop (cfg : Params) (irr : Irregularity) :
    Nat → List PolarMapSeed → PolarMap → Option PolarMap
  | _, [], m => some m
  | 0, _ :: _, _ => none
  | fuel + 1, s :: queue, m =>
    let st := examine cfg irr (neighbours m.nAng m.nDist s) (m, queue)
    growLoop cfg irr fuel st.2 st.1

/-- Modelled from the spec: "initialize a work queue with the seed bins, each
forced to free regardless of its own statistics". -/
def forceSeeds (m : PolarMap) (seeds : List PolarMapSeed) : PolarMap :=
  seeds.foldl (fun m s => m.setLabel s FREE) m

/-- Modelled from the spec: "after the queue empties, every bin that is still
unset is relabeled unknown". -/
def relabelUnknown (m : PolarMap) : PolarMap :=
  { m with bins := fun a d =>
      if PolarMap.inGrid m.nAng m.nDist ⟨a, d⟩ ∧ (m.bins a d).idx = NOT_SET then
        { m.bins a d with idx := UNKNOWN }
      else m.bins a d }

/-- Modelled from the spec: the GroundClassifier, local labeling followed by the
connectivity growth from the seeds. Each pop but the seeds' follows an
admission, and a bin is admitted at most once, so `nAng * nDist` pops plus one
per seed are enough. -/
def regionGrowing (cfg : Params) (irr : Irregularity) (seeds : List PolarMapSeed)
    (m : PolarMap) : Option PolarMap :=
  (growLoop cfg irr (m.nAng * m.nDist + seeds.length) seeds
    (forceSeeds (localPhase cfg irr m) seeds)).map relabelUnknown

/-- A chain of 4-neighbour steps, listed from its end back to its start: each
position is a neighbour of the one listed after it. -/
def IsPath (nAng nDist : Nat) (p : List PolarMapSeed) : Prop :=
  p.Chain' fun u v => u ∈ neighbours nAng nDist v

/-- The list `p` is a path of 4-neighbour steps that starts at one of the
`seeds` (its last entry) and ends at the bin `t` (its first entry). -/
def PathFromSeed (nAng nDist : Nat) (seeds : List PolarMapSeed) (t : PolarMapSeed)
    (p : List PolarMapSeed) : Prop :=
  p.head? = some t ∧ (∃ s ∈ seeds, p.getLast? = some s) ∧ IsPath nAng nDist p

/-- The region index of the bin at a position. -/
def PolarMap.label (m : PolarMap) (s : PolarMapSeed) : Nat :=
  (m.bins s.ang s.dist).idx

/-- An example map of 4 angular by 3 radial bins. The bin (0,1) holds two
points of heights 0 and 1, the bins (0,0), (0,2), (1,0), (1,1) and (1,2) one
point of height 0 each, and the other bins are empty. -/
def detourMap : PolarMap where
  nAng := 4
  nDist := 3
  bins := fun a d =>
    if a = 0 ∧ d = 1 then PolarMapBin.new.feed [(0, 3 / 2, 1), (1, 3 / 2, 1)]
    else if (a = 0 ∧ (d = 0 ∨ d = 2)) ∨ (a = 1 ∧ (d = 0 ∨ d = 1 ∨ d = 2)) then
      PolarMapBin.new.feed [(0, (d : ℚ) + 1 / 2, d)]
    else PolarMapBin.new

/-- The number of bins of the grid that the growth could still admit. -/
def admissibleCount (cfg : Params) (irr : Irregularity) (nAng nDist : Nat) (m : PolarMap) : Nat :=
  (List.product (List.range nAng) (List.range nDist)).countP
    fun c => admissible cfg irr m ⟨(c.1 : Int), (c.2 : Int)⟩

/-- The state of the growth loop, a map `m` and a work queue, is consistent
with the input map `m0` and the seeds: the dimensions and the statistics are
those of `m0`, every queued position is a free bin of the grid, and every free
bin of the grid is the end of a path from a seed through free bins of the grid
and is a seed or locally traversable. -/
structure GrowInv (cfg : Params) (irr : Irregularity) (seeds : List PolarMapSeed)
    (m0 m : PolarMap) (queue : List PolarMapSeed) : Prop where
  /-- The number of angular bins is unchanged. -/
  nAng_eq : m.nAng = m0.nAng
  /-- The number of radial bins is unchanged. -/
  nDist_eq : m.nDist = m0.nDist
  /-- The local test gives what it gave on the input map. -/
  trav_eq : ∀ a d, locallyTraversable cfg irr (m.bins a d) = locallyTraversable cfg irr (m0.bins a d)
  /-- Queued positions are free bins of the grid. -/
  queue_free : ∀ s ∈ queue, PolarMap.inGrid m0.nAng m0.nDist s = true ∧ m.label s = FREE
  /-- Free bins are joined to a seed through free bins. -/
  free_path : ∀ t, PolarMap.inGrid m0.nAng m0.nDist t = true → m.label t = FREE →
    ∃ p, PathFromSeed m0.nAng m0.nDist seeds t p ∧
      ∀ u ∈ p, PolarMap.inGrid m0.nAng m0.nDist u = true ∧ m.label u = FREE
  /-- Free bins are seeds or locally traversable. -/
  free_trav : ∀ t, PolarMap.inGrid m0.nAng m0.nDist t = true → m.label t = FREE →
    t ∈ seeds ∨ locallyTraversable cfg irr (m0.bins t.ang t.dist) = true

end GroundMap

end but_velodyne

namespace rt_road_detection

/-! ## The sample road detector -/

/-- A `cv::Mat` of `uchar` elements: its dimensions and the element accessor
`data row col channel`. -/
structure Mat where
  /-- Number of rows. -/
  rows : Nat
  /-- Number of columns. -/
  cols : Nat
  /-- Number of channels. -/
  channels : Nat
  /-- Element at a row, column and channel. -/
  data : Nat → Nat → Nat → Nat

/-- The colour conversion codes `detect` passes to `cv::cvtColor`. -/
inductive ColorConversionCode where
  | CV_RGB2HSV
  | CV_BGR2HSV
deriving DecidableEq

/-- The OpenCV routines `detect` calls and this repository does not define. -/
structure OpenCV where
  /-- The result `dst` of `cv::cvtColor(src, dst, code)`. -/
  cvtColor : Mat → ColorConversionCode → Mat
  /-- The result `dst` of `cv::medianBlur(src, dst, ksize)`. -/
  medianBlur : Mat → Int → Mat

/-- The message header `std_msgs::Header`. -/
structure Header where
  /-- Sequence number. -/
  seq : Nat
  /-- Time stamp, seconds and nanoseconds. -/
  stamp : Nat × Nat
  /-- Frame the data belongs to. -/
  frame_id : String
deriving DecidableEq

/-- The object behind a `cv_bridge::CvImagePtr`. -/
structure CvImage where
  /-- ROS header. -/
  header : Header
  /-- Image encoding. -/
  encoding : String
  /-- Image data. -/
  image : Mat

/-- The constant `sensor_msgs::image_encodings::MONO8`. -/
def MONO8 : String := "mono8"

/-- The members of `SampleRoadDetector`, set by its constructor from `int`s. -/
structure SampleRoadDetector where
  /-- Lower hue threshold. -/
  hue_min_ : Int
  /-- Upper hue threshold. -/
  hue_max_ : Int
  /-- Kernel size of the median blur. -/
  median_blur_ks_ : Int

/-- The constructor `SampleRoadDetector(int hsv_min, int hsv_max, int median_blur_ks)`. -/
def SampleRoadDetector.new (hsv_min hsv_max median_blur_ks : Int) :
    SampleRoadDetector where
  hue_min_ := hsv_min
  hue_max_ := hsv_max
  median_blur_ks_ := median_blur_ks

/-- Storing an integer value in a `uchar`: reduction modulo 256. (For a value
outside `0..255` that comes from a floating point number C++ leaves the
conversion undefined; the wrap-around is what the usual targets do.) -/
def toUchar (x : Int) : Nat := (x % 256).toNat

/-- The value an `int` holds after an arithmetic operation with the exact result
`x`: `x` itself when it fits 32 bits, else its two's complement wrap-around
(C++ leaves a signed overflow undefined; the wrap-around is what the usual
targets compute). -/
def wrapInt (x : Int) : Int := (x + 2 ^ 31) % 2 ^ 32 - 2 ^ 31

/-- The local `c` of `detect`: `uchar c = (hue_max_ - hue_min_)/2; // middle value`,
an `int` subtraction and division (truncating) stored in a `uchar`. -/
def SampleRoadDetector.c (self : SampleRoadDetector) : Nat :=
  toUchar (Int.tdiv (wrapInt (self.hue_max_ - self.hue_min_)) 2)

/-- The floating point arithmetic `detect` runs on, as far as its results are
not exact: the conversion of the thresholds to `float` and the evaluation of
the scaling expression. A floating point number is the rational it holds. -/
structure FloatArith where
  /-- The conversion `(float)x` of an `int`. -/
  toFloat : Int → ℚ
  /-- The value stored by `(uchar)floor( ((v-fh_min) / (fh_max-fh_min))*255.0 )`
  for the `float`s `v`, `fh_min`, `fh_max`: a `float` subtraction and division,
  a `double` product and `floor`, and the conversion to `uchar`, which C++
  defines only for a result within `0..255`. -/
  scale : ℚ → ℚ → ℚ → Nat

/-- Exact arithmetic: no rounding, a division by zero gives 0, and a result
outside `0..255` is stored modulo 256. -/
def FloatArith.exact : FloatArith where
  toFloat := fun x => (x : ℚ)
  scale := fun v fh_min fh_max => toUchar ⌊((v - fh_min) / (fh_max - fh_min)) * 255⌋

/-- The body of the inner loop of `detect` for a pixel of hue `p`: the value
written to `bin_mask.at<uchar>(row,col)`, from the members `hue_min_`,
`hue_max_` and the local `c`. The hue and `c` are `uchar`s, so their `float`s
and the shift `v -= 2*(v-fc)` are exact; the scaling is left to `fa`. -/
def pixelValue (fa : FloatArith) (hue_min_ hue_max_ : Int) (c : Nat) (p : Nat) : Nat :=
  let fh_min : ℚ := fa.toFloat hue_min_
  let fh_max : ℚ := fa.toFloat hue_max_
  if (p : Int) < hue_min_ ∨ (p : Int) > hue_max_ then 0
  else
    if p = c then 255
    else
      let v : ℚ := p
      let fc : ℚ := c
      -- shift everything to the left side of middle value
      let v := if v > fc then v - 2 * (v - fc) else v
      fa.scale v fh_min fh_max

/-- The body of the inner loop of `detect` in exact rational arithmetic,
`pixelValue FloatArith.exact` written out (a division by zero gives 0). The
`float` evaluation of the code gives the same value as long as the shifted hue
`v` is not below `hue_min_`. -/
def maskValue (hue_min_ hue_max_ : Int) (c : Nat) (p : Nat) : Nat :=
  let fh_min : ℚ := hue_min_
  let fh_max : ℚ := hue_max_
  if (p : Int) < hue_min_ ∨ (p : Int) > hue_max_ then 0
  else
    if p = c then 255
    else
      let v : ℚ := p
      let fc : ℚ := c
      -- shift everything to the left side of middle value
      let v := if v > fc then v - 2 * (v - fc) else v
      toUchar ⌊((v - fh_min) / (fh_max - fh_min)) * 255⌋

/-- Writing `bin_mask.at<uchar>(row,col) = x`. -/
def Mat.set (m : Mat) (row col x : Nat) : Mat :=
  { m with data := fun r c ch => if r = row ∧ c = col ∧ ch = 0 then x else m.data r c ch }

/-- The plane `hsv_vec[0]` after `cv::split(hsv, hsv_vec)`: the first channel. -/
def hsv_vec0 (hsv : Mat) : Mat :=
  { rows := hsv.rows, cols := hsv.cols, channels := 1, data := fun r c _ => hsv.data r c 0 }

/-- The inner loop `for (col; col < cols; ++col)` of `detect` on one row.
`bin_mask` shares its buffer with `hsv_vec[0]`, so the pixel read through `p`
and the pixel written are the same element of `m`. -/
def SampleRoadDetector.colLoop (self : SampleRoadDetector) (fa : FloatArith) (row : Nat)
    (cols : Nat) (col : Nat) (m : Mat) : Mat :=
  if col < cols then
    self.colLoop fa row cols (col + 1)
      (m.set row col (pixelValue fa self.hue_min_ self.hue_max_ self.c (m.data row col 0)))
  else m
termination_by cols - col

/-- The outer loop `for (row; row < rows; ++row)` of `detect`. -/
def SampleRoadDetector.rowLoop (self : SampleRoadDetector) (fa : FloatArith) (rows : Nat)
    (row : Nat) (m : Mat) : Mat :=
  if row < rows then
    self.rowLoop fa rows (row + 1) (self.colLoop fa row m.cols 0 m)
  else m
termination_by rows - row

/-- The hue plane `detect` thresholds, or `none` for an encoding it rejects. -/
def hueOf (cv : OpenCV) (inp : CvImage) : Option Mat :=
  if inp.encoding = "rgb8" then some (hsv_vec0 (cv.cvtColor inp.image .CV_RGB2HSV))
  else if inp.encoding = "bgr8" then some (hsv_vec0 (cv.cvtColor inp.image .CV_BGR2HSV))
  else none

/-- The mask `bin_mask` of `detect` when the two loops are done, before
`cv::medianBlur`; `none` for an encoding `detect` rejects. -/
def SampleRoadDetector.preBlurMask (self : SampleRoadDetector) (fa : FloatArith) (cv : OpenCV)
    (inp : CvImage) : Option Mat :=
  (hueOf cv inp).map fun hue => self.rowLoop fa hue.rows 0 hue

/-- `SampleRoadDetector::detect(in, out)`: the returned flag and the object
behind `out` afterwards. The warning logged when the encoding is rejected is
not part of the state. -/
def SampleRoadDetector.detect (self : SampleRoadDetector) (fa : FloatArith) (cv : OpenCV)
    (inp out : CvImage) : Bool × CvImage :=
  match self.preBlurMask fa cv inp with
  | none => (false, out)
  | some bin_mask =>
    (true, { encoding := MONO8
             header := inp.header
             image := cv.medianBlur bin_mask self.median_blur_ks_ })

/-- Colour conversions that leave the image as it is, for the examples: the
images below are given by their HSV planes. -/
def plainCv : OpenCV where
  cvtColor := fun m _ => m
  medianBlur := fun m _ => m

/-- A 2×2 `rgb8` example image whose first plane holds the hues 40, 90, 70, 120. -/
def hueImageA : CvImage where
  header := ⟨0, (0, 0), "camera"⟩
  encoding := "rgb8"
  image := ⟨2, 2, 3, fun r c _ => 40 + 30 * r + 50 * c⟩

/-- A 2×2 `bgr8` example image whose first plane holds the hues 120, 70, 90, 40. -/
def hueImageB : CvImage where
  header := ⟨1, (0, 0), "camera"⟩
  encoding := "bgr8"
  image := ⟨2, 2, 3, fun r c _ => 120 - 30 * r - 50 * c⟩

end rt_road_detection

/-! # Properties -/

namespace but_velodyne

namespace GroundMap

/-- C1: a default-constructed `GroundMap::Params` has an empty `frame_id`,
`map2d_res = 0.05`, `map2d_width = map2d_height = 128`, `min_range = 1.2`,
`max_range = 3.0`, `angular_res = 5.0`, `radial_res = 0.3` and
`max_road_irregularity = 0.03`, and each field is the value of its
`getDefault*` function. -/
theorem Params.new_defaults :
    (Params.new.frame_id = "" ∧ Params.new.map2d_res = 0.05 ∧ Params.new.map2d_width = 128 ∧
      Params.new.map2d_height = 128 ∧ Params.new.min_range = 1.2 ∧ Params.new.max_range = 3.0 ∧
      Params.new.angular_res = 5.0 ∧ Params.new.radial_res = 0.3 ∧
      Params.new.max_road_irregularity = 0.03) ∧
    (Params.new.map2d_res = Params.getDefaultMapRes ∧
      Params.new.map2d_width = Params.getDefaultMapSize ∧
      Params.new.map2d_height = Params.getDefaultMapSize ∧
      Params.new.min_range = Params.getDefaultMinRange ∧
      Params.new.max_range = Params.getDefaultMaxRange ∧
      Params.new.angular_res = Params.getDefaultAngularRes ∧
      Params.new.radial_res = Params.getDefaultRadialRes ∧
      Params.new.max_road_irregularity = Params.getDefaultMaxRoadIrregularity) :=
  ⟨⟨rfl, rfl, rfl, rfl, rfl, rfl, rfl, rfl, rfl⟩, rfl, rfl, rfl, rfl, rfl, rfl, rfl, rfl⟩

/-- C2: a default-constructed `PolarMapBin`, and with it every bin of a reset
polar grid, is unset and empty: `idx` is `NOT_SET`, the counts `n` and `dst_n`
are 0, the accumulators `sum`, `sum_sqr`, `dst_sum`, `dst_sum_sqr` and the
statistics `min`, `max`, `avg`, `var`, `dst_avg`, `dst_var` are 0, and
`dst_ring` is -1. -/
theorem PolarMapBin.new_unset_empty :
    (PolarMapBin.new.idx = NOT_SET ∧ PolarMapBin.new.n = 0 ∧ PolarMapBin.new.dst_n = 0 ∧
      PolarMapBin.new.sum = 0 ∧ PolarMapBin.new.sum_sqr = 0 ∧ PolarMapBin.new.dst_sum = 0 ∧
      PolarMapBin.new.dst_sum_sqr = 0 ∧ PolarMapBin.new.min = 0 ∧ PolarMapBin.new.max = 0 ∧
      PolarMapBin.new.avg = 0 ∧ PolarMapBin.new.var = 0 ∧ PolarMapBin.new.dst_avg = 0 ∧
      PolarMapBin.new.dst_var = 0 ∧ PolarMapBin.new.dst_ring = -1) ∧
    ∀ (nAng nDist : Nat) (a d : Int), (PolarMap.reset nAng nDist).bins a d = PolarMapBin.new := by
  refine ⟨⟨rfl, rfl, rfl, ?_, ?_, ?_, ?_, ?_, ?_, ?_, ?_, ?_, ?_, rfl⟩, fun _ _ _ _ => rfl⟩ <;>
    norm_num [PolarMapBin.new]

/-- The local test does not read the region index. -/
theorem locallyTraversable_idx (cfg : Params) (irr : Irregularity) (b : PolarMapBin) (l : Nat) :
    locallyTraversable cfg irr { b with idx := l } = locallyTraversable cfg irr b := by
  cases irr <;> rfl

/-- Two positions are equal when their indices are. -/
theorem PolarMapSeed.eq_iff (s t : PolarMapSeed) : s = t ↔ s.ang = t.ang ∧ s.dist = t.dist := by
  cases s
  cases t
  simp

/-- The bin at the position whose label is written. -/
theorem PolarMap.bins_setLabel_self (m : PolarMap) (s : PolarMapSeed) (l : Nat) :
    (m.setLabel s l).bins s.ang s.dist = { m.bins s.ang s.dist with idx := l } := by
  simp [PolarMap.setLabel, PolarMap.update]

/-- The bins at the other positions. -/
theorem PolarMap.bins_setLabel_ne (m : PolarMap) (s t : PolarMapSeed) (l : Nat) (h : t ≠ s) :
    (m.setLabel s l).bins t.ang t.dist = m.bins t.ang t.dist := by
  have h1 : ¬ (t.ang = s.ang ∧ t.dist = s.dist) := fun hh => h ((PolarMapSeed.eq_iff t s).mpr hh)
  simp [PolarMap.setLabel, PolarMap.update, h1]

/-- Reading a label after writing one. -/
theorem PolarMap.label_setLabel (m : PolarMap) (s t : PolarMapSeed) (l : Nat) :
    (m.setLabel s l).label t = if t = s then l else m.label t := by
  by_cases h : t = s
  · subst h
    simp [PolarMap.label, PolarMap.bins_setLabel_self]
  · simp [PolarMap.label, PolarMap.bins_setLabel_ne m s t l h, h]

/-- Writing a label does not change the local test of any bin. -/
theorem PolarMap.trav_setLabel (cfg : Params) (irr : Irregularity) (m : PolarMap)
    (s : PolarMapSeed) (l : Nat) (a d : Int) :
    locallyTraversable cfg irr ((m.setLabel s l).bins a d)
      = locallyTraversable cfg irr (m.bins a d) := by
  simp only [PolarMap.setLabel, PolarMap.update]
  split
  · exact locallyTraversable_idx cfg irr _ l
  · rfl

/-- Once a bin is labeled free it is no longer admissible; the other bins are
as admissible as before. -/
theorem admissible_setLabel_free (cfg : Params) (irr : Irregularity) (m : PolarMap)
    (s t : PolarMapSeed) :
    admissible cfg irr (m.setLabel s FREE) t = if t = s then false else admissible cfg irr m t := by
  by_cases h : t = s
  · subst h
    simp [admissible, PolarMap.bins_setLabel_self, FREE, NOT_SET]
  · simp [admissible, PolarMap.bins_setLabel_ne m s t FREE h, h]

/-- A predicate that is implied by `p` and fails at an entry where `p` holds
counts strictly fewer entries. -/
theorem countP_lt_of_imp {α : Type} (p q : α → Bool) (x : α)
    (hpx : p x = true) (hqx : q x = false) (himp : ∀ y, q y = true → p y = true) :
    ∀ l : List α, x ∈ l → l.countP q < l.countP p := by
  intro l
  induction l with
  | nil => intro hx; simp at hx
  | cons a l ih =>
    intro hx
    rw [List.countP_cons, List.countP_cons]
    have hmono : l.countP q ≤ l.countP p := List.countP_mono_left fun y _ hy => himp y hy
    rcases List.mem_cons.mp hx with h | h
    · subst h
      simp [hpx, hqx]
      omega
    · have := ih h
      by_cases hq : q a = true
      · simp [hq, himp a hq]
        omega
      · simp [hq]
        omega

/-- A position of the grid is listed among the cells that `admissibleCount` counts. -/
theorem mem_cells_of_inGrid (nAng nDist : Nat) (s : PolarMapSeed)
    (h : PolarMap.inGrid nAng nDist s = true) :
    (s.ang.toNat, s.dist.toNat) ∈ List.product (List.range nAng) (List.range nDist) ∧
      (⟨(s.ang.toNat : Int), (s.dist.toNat : Int)⟩ : PolarMapSeed) = s := by
  simp only [PolarMap.inGrid, Bool.and_eq_true, decide_eq_true_eq] at h
  obtain ⟨⟨⟨h1, h2⟩, h3⟩, h4⟩ := h
  refine ⟨?_, ?_⟩
  · refine List.mem_product.mpr ⟨List.mem_range.mpr ?_, List.mem_range.mpr ?_⟩ <;> omega
  · rw [PolarMapSeed.eq_iff]
    simp only
    omega

/-- Admitting a bin lowers the number of admissible bins. -/
theorem admissibleCount_setLabel_free (cfg : Params) (irr : Irregularity) (nAng nDist : Nat)
    (m : PolarMap) (s : PolarMapSeed) (hs : PolarMap.inGrid nAng nDist s = true)
    (ha : admissible cfg irr m s = true) :
    admissibleCount cfg irr nAng nDist (m.setLabel s FREE) + 1
      ≤ admissibleCount cfg irr nAng nDist m := by
  obtain ⟨hmem, heq⟩ := mem_cells_of_inGrid nAng nDist s hs
  unfold admissibleCount
  apply Nat.succ_le_of_lt
  apply countP_lt_of_imp _ _ (s.ang.toNat, s.dist.toNat) _ _ _ _ hmem
  · simp only [heq, ha]
  · simp only [heq, admissible_setLabel_free, if_true]
  · intro y hy
    rw [admissible_setLabel_free] at hy
    split at hy
    · exact absurd hy (by simp)
    · exact hy

/-- Labeling a bin free keeps the free bins free. -/
theorem PolarMap.label_setLabel_free_mono (m : PolarMap) (s u : PolarMapSeed)
    (h : m.label u = FREE) : (m.setLabel s FREE).label u = FREE := by
  rw [PolarMap.label_setLabel]
  split
  · rfl
  · exact h

/-- A neighbour is a bin of the grid. -/
theorem inGrid_of_mem_neighbours (nAng nDist : Nat) (s nb : PolarMapSeed)
    (h : nb ∈ neighbours nAng nDist s) : PolarMap.inGrid nAng nDist nb = true :=
  (List.mem_filter.mp h).2

/-- A path to a free bin `s` extends to a neighbour `nb` that is labeled free. -/
theorem free_path_extend (nAng nDist : Nat) (seeds : List PolarMapSeed) (m : PolarMap)
    (s nb : PolarMapSeed) (hnb : nb ∈ neighbours nAng nDist s) (p : List PolarMapSeed)
    (hp : PathFromSeed nAng nDist seeds s p)
    (hfree : ∀ u ∈ p, PolarMap.inGrid nAng nDist u = true ∧ m.label u = FREE) :
    PathFromSeed nAng nDist seeds nb (nb :: p) ∧
      ∀ u ∈ nb :: p, PolarMap.inGrid nAng nDist u = true ∧ (m.setLabel nb FREE).label u = FREE := by
  obtain ⟨hhead, ⟨sd, hsd, hlast⟩, hchain⟩ := hp
  refine ⟨⟨rfl, ⟨sd, hsd, ?_⟩, ?_⟩, ?_⟩
  · cases p with
    | nil => simp at hhead
    | cons a p => rw [List.getLast?_cons_cons]; exact hlast
  · unfold IsPath
    rw [List.chain'_cons']
    refine ⟨fun y hy => ?_, hchain⟩
    rw [hhead] at hy
    cases hy
    exact hnb
  · intro u hu
    rcases List.mem_cons.mp hu with h | h
    · subst h
      refine ⟨inGrid_of_mem_neighbours nAng nDist s u hnb, ?_⟩
      rw [PolarMap.label_setLabel, if_pos rfl]
    · exact ⟨(hfree u h).1, PolarMap.label_setLabel_free_mono m nb u (hfree u h).2⟩

/-- Admitting a neighbour of a free bin of the grid keeps the loop state consistent. -/
theorem GrowInv.enqueue_free (cfg : Params) (irr : Irregularity) (seeds : List PolarMapSeed)
    (m0 m : PolarMap) (queue : List PolarMapSeed) (s nb : PolarMapSeed)
    (hs : PolarMap.inGrid m0.nAng m0.nDist s = true) (hfree : m.label s = FREE)
    (hnb : nb ∈ neighbours m0.nAng m0.nDist s) (ha : admissible cfg irr m nb = true)
    (inv : GrowInv cfg irr seeds m0 m queue) :
    GrowInv cfg irr seeds m0 (m.setLabel nb FREE) (queue ++ [nb]) where
  nAng_eq := inv.nAng_eq
  nDist_eq := inv.nDist_eq
  trav_eq := fun a d => (PolarMap.trav_setLabel cfg irr m nb FREE a d).trans (inv.trav_eq a d)
  queue_free := by
    intro s1 hs1
    rcases List.mem_append.mp hs1 with h | h
    · exact ⟨(inv.queue_free s1 h).1,
        PolarMap.label_setLabel_free_mono m nb s1 (inv.queue_free s1 h).2⟩
    · rw [List.mem_singleton] at h
      subst h
      refine ⟨inGrid_of_mem_neighbours _ _ s s1 hnb, ?_⟩
      rw [PolarMap.label_setLabel, if_pos rfl]
  free_path := by
    intro t ht hlab
    by_cases htn : t = nb
    · subst htn
      obtain ⟨p, hp, hpf⟩ := inv.free_path s hs hfree
      exact ⟨t :: p, free_path_extend _ _ seeds m s t hnb p hp hpf⟩
    · rw [PolarMap.label_setLabel, if_neg htn] at hlab
      obtain ⟨p, hp, hpf⟩ := inv.free_path t ht hlab
      exact ⟨p, hp, fun u hu =>
        ⟨(hpf u hu).1, PolarMap.label_setLabel_free_mono m nb u (hpf u hu).2⟩⟩
  free_trav := by
    intro t ht hlab
    by_cases htn : t = nb
    · subst htn
      right
      rw [← inv.trav_eq]
      simp only [admissible, Bool.and_eq_true] at ha
      exact ha.1.2
    · rw [PolarMap.label_setLabel, if_neg htn] at hlab
      exact inv.free_trav t ht hlab

/-- Examining neighbours of a free bin of the grid keeps the loop state
consistent, and what is queued is paid for by what is no longer admissible. -/
theorem examine_inv (cfg : Params) (irr : Irregularity) (seeds : List PolarMapSeed)
    (m0 : PolarMap) (s : PolarMapSeed) (hs : PolarMap.inGrid m0.nAng m0.nDist s = true) :
    ∀ (nbs : List PolarMapSeed) (m : PolarMap) (queue : List PolarMapSeed),
      (∀ nb ∈ nbs, nb ∈ neighbours m0.nAng m0.nDist s) → m.label s = FREE →
      GrowInv cfg irr seeds m0 m queue →
      GrowInv cfg irr seeds m0 (examine cfg irr nbs (m, queue)).1
          (examine cfg irr nbs (m, queue)).2 ∧
        admissibleCount cfg irr m0.nAng m0.nDist (examine cfg irr nbs (m, queue)).1
            + (examine cfg irr nbs (m, queue)).2.length
          ≤ admissibleCount cfg irr m0.nAng m0.nDist m + queue.length := by
  intro nbs
  induction nbs with
  | nil =>
    intro m queue _ _ inv
    exact ⟨inv, le_refl _⟩
  | cons nb nbs ih =>
    intro m queue hnbs hfree inv
    have hnb : nb ∈ neighbours m0.nAng m0.nDist s := hnbs nb (List.mem_cons_self nb nbs)
    have hrest : ∀ x ∈ nbs, x ∈ neighbours m0.nAng m0.nDist s :=
      fun x hx => hnbs x (List.mem_cons_of_mem nb hx)
    by_cases ha : admissible cfg irr m nb = true
    · simp only [examine, if_pos ha]
      obtain ⟨h1, h2⟩ := ih (m.setLabel nb FREE) (queue ++ [nb]) hrest
        (PolarMap.label_setLabel_free_mono m nb s hfree)
        (GrowInv.enqueue_free cfg irr seeds m0 m queue s nb hs hfree hnb ha inv)
      refine ⟨h1, ?_⟩
      have h3 := admissibleCount_setLabel_free cfg irr m0.nAng m0.nDist m nb
        (inGrid_of_mem_neighbours _ _ s nb hnb) ha
      rw [List.length_append, List.length_singleton] at h2
      omega
    · simp only [examine, if_neg ha]
      exact ih m queue hrest hfree inv

/-- With fuel for every pop the growth loop ends with an empty queue, in a
consistent state. -/
theorem growLoop_inv (cfg : Params) (irr : Irregularity) (seeds : List PolarMapSeed)
    (m0 : PolarMap) :
    ∀ (fuel : Nat) (queue : List PolarMapSeed) (m : PolarMap),
      admissibleCount cfg irr m0.nAng m0.nDist m + queue.length ≤ fuel →
      GrowInv cfg irr seeds m0 m queue →
      ∃ m1, growLoop cfg irr fuel queue m = some m1 ∧ GrowInv cfg irr seeds m0 m1 [] := by
  intro fuel
  induction fuel with
  | zero =>
    intro queue m hfuel inv
    cases queue with
    | nil => exact ⟨m, rfl, inv⟩
    | cons s queue => simp at hfuel
  | succ fuel ih =>
    intro queue m hfuel inv
    cases queue with
    | nil => exact ⟨m, rfl, inv⟩
    | cons s queue =>
      have hs := inv.queue_free s (List.mem_cons_self s queue)
      have inv1 : GrowInv cfg irr seeds m0 m queue :=
        { inv with queue_free := fun x hx => inv.queue_free x (List.mem_cons_of_mem s hx) }
      have hnbs : ∀ nb ∈ neighbours m.nAng m.nDist s, nb ∈ neighbours m0.nAng m0.nDist s := by
        rw [inv.nAng_eq, inv.nDist_eq]
        exact fun nb h => h
      obtain ⟨h1, h2⟩ := examine_inv cfg irr seeds m0 s hs.1
        (neighbours m.nAng m.nDist s) m queue hnbs hs.2 inv1
      simp only [growLoop]
      apply ih _ _ _ h1
      simp only [List.length_cons] at hfuel
      omega

/-- Forcing the seeds free labels exactly the seeds, and nothing else changes. -/
theorem forceSeeds_spec (cfg : Params) (irr : Irregularity) (seeds : List PolarMapSeed) :
    ∀ m : PolarMap,
      (forceSeeds m seeds).nAng = m.nAng ∧ (forceSeeds m seeds).nDist = m.nDist ∧
      (∀ t, (forceSeeds m seeds).label t = if t ∈ seeds then FREE else m.label t) ∧
      (∀ a d, locallyTraversable cfg irr ((forceSeeds m seeds).bins a d)
        = locallyTraversable cfg irr (m.bins a d)) := by
  induction seeds with
  | nil =>
    intro m
    exact ⟨rfl, rfl, fun t => by simp [forceSeeds], fun _ _ => rfl⟩
  | cons s seeds ih =>
    intro m
    obtain ⟨h1, h2, h3, h4⟩ := ih (m.setLabel s FREE)
    have hstep : forceSeeds m (s :: seeds) = forceSeeds (m.setLabel s FREE) seeds := rfl
    rw [hstep]
    refine ⟨h1, h2, fun t => ?_, fun a d => ?_⟩
    · rw [h3, PolarMap.label_setLabel]
      by_cases ht : t ∈ seeds
      · simp [ht]
      · by_cases hts : t = s
        · simp [hts]
        · simp [ht, hts]
    · rw [h4, PolarMap.trav_setLabel]

/-- The local phase labels no bin free when the map came in unset, and does
not change the local test. -/
theorem localPhase_spec (cfg : Params) (irr : Irregularity) (m : PolarMap) :
    (∀ t, m.label t = NOT_SET → (localPhase cfg irr m).label t ≠ FREE) ∧
      (∀ a d, locallyTraversable cfg irr ((localPhase cfg irr m).bins a d)
        = locallyTraversable cfg irr (m.bins a d)) := by
  constructor
  · intro t ht
    simp only [PolarMap.label] at ht
    simp only [PolarMap.label, localPhase, localLabel]
    split
    · split
      · simp [OCCUPIED, FREE]
      · rw [ht]
        simp [NOT_SET, FREE]
    · rw [ht]
      simp [NOT_SET, FREE]
  · intro a d
    simp only [localPhase, localLabel]
    split
    · split
      · exact locallyTraversable_idx cfg irr _ OCCUPIED
      · rfl
    · rfl

/-- Relabeling the unset bins keeps the free labels and adds none. -/
theorem relabelUnknown_label_free (m : PolarMap) (t : PolarMapSeed) :
    (relabelUnknown m).label t = FREE ↔ m.label t = FREE := by
  simp only [PolarMap.label, relabelUnknown]
  split
  · rename_i h
    rw [h.2]
    simp [UNKNOWN, FREE, NOT_SET]
  · rfl

/-- There are at most `nAng * nDist` admissible bins. -/
theorem admissibleCount_le (cfg : Params) (irr : Irregularity) (nAng nDist : Nat) (m : PolarMap) :
    admissibleCount cfg irr nAng nDist m ≤ nAng * nDist := by
  unfold admissibleCount
  have hlen := List.length_product (List.range nAng) (List.range nDist)
  rw [List.length_range, List.length_range] at hlen
  exact (List.countP_le_length _).trans hlen.le

/-- The growth starts in a consistent state: the seeds forced free on a locally
labeled map that came in unset, with the seeds queued. -/
theorem growInv_init (cfg : Params) (irr : Irregularity) (seeds : List PolarMapSeed)
    (m : PolarMap)
    (hfresh : ∀ s, PolarMap.inGrid m.nAng m.nDist s = true → m.label s = NOT_SET)
    (hseeds : ∀ s ∈ seeds, PolarMap.inGrid m.nAng m.nDist s = true) :
    GrowInv cfg irr seeds m (forceSeeds (localPhase cfg irr m) seeds) seeds := by
  obtain ⟨h1, h2, h3, h4⟩ := forceSeeds_spec cfg irr seeds (localPhase cfg irr m)
  obtain ⟨l1, l2⟩ := localPhase_spec cfg irr m
  have hseed_of_free : ∀ t, PolarMap.inGrid m.nAng m.nDist t = true →
      (forceSeeds (localPhase cfg irr m) seeds).label t = FREE → t ∈ seeds := by
    intro t ht hlab
    by_contra hmem
    rw [h3, if_neg hmem] at hlab
    exact l1 t (hfresh t ht) hlab
  refine ⟨h1, h2, fun a d => (h4 a d).trans (l2 a d), fun s hs => ⟨hseeds s hs, ?_⟩,
    fun t ht hlab => ?_, fun t ht hlab => Or.inl (hseed_of_free t ht hlab)⟩
  · rw [h3, if_pos hs]
  · refine ⟨[t], ⟨rfl, ⟨t, hseed_of_free t ht hlab, rfl⟩, List.chain'_singleton t⟩, ?_⟩
    intro u hu
    rw [List.mem_singleton] at hu
    subst hu
    exact ⟨ht, hlab⟩

/-- C3, amended: region growing on a polar map that comes in unset, from seeds
that are bins of the grid, runs to completion, and every bin it labels FREE is
the end of a path of 4-neighbour steps (angular index wrapping) that starts at
a seed and visits only bins of the grid labeled FREE, so that this path
crosses no OCCUPIED and no NOT_SET bin; a FREE bin is moreover a seed or a bin
with nonzero count that passed the local test. -/
theorem regionGrowing_free_connected (cfg : Params) (irr : Irregularity)
    (seeds : List PolarMapSeed) (m : PolarMap)
    (hfresh : ∀ s, PolarMap.inGrid m.nAng m.nDist s = true → m.label s = NOT_SET)
    (hseeds : ∀ s ∈ seeds, PolarMap.inGrid m.nAng m.nDist s = true) :
    ∃ grown, regionGrowing cfg irr seeds m = some grown ∧
      ∀ t, PolarMap.inGrid m.nAng m.nDist t = true → grown.label t = FREE →
        (∃ p, PathFromSeed m.nAng m.nDist seeds t p ∧
          ∀ u ∈ p, PolarMap.inGrid m.nAng m.nDist u = true ∧ grown.label u = FREE ∧
            grown.label u ≠ OCCUPIED ∧ grown.label u ≠ NOT_SET) ∧
        (t ∈ seeds ∨ locallyTraversable cfg irr (m.bins t.ang t.dist) = true) := by
  have init := growInv_init cfg irr seeds m hfresh hseeds
  have hfuel : admissibleCount cfg irr m.nAng m.nDist (forceSeeds (localPhase cfg irr m) seeds)
      + seeds.length ≤ m.nAng * m.nDist + seeds.length :=
    Nat.add_le_add_right (admissibleCount_le cfg irr _ _ _) _
  obtain ⟨m1, hrun, inv⟩ := growLoop_inv cfg irr seeds m _ seeds _ hfuel init
  refine ⟨relabelUnknown m1, ?_, fun t ht hlab => ?_⟩
  · simp only [regionGrowing]
    rw [hrun]
    rfl
  · rw [relabelUnknown_label_free] at hlab
    obtain ⟨p, hp, hpf⟩ := inv.free_path t ht hlab
    refine ⟨⟨p, hp, fun u hu => ?_⟩, inv.free_trav t ht hlab⟩
    have hu1 : (relabelUnknown m1).label u = FREE :=
      (relabelUnknown_label_free m1 u).mpr (hpf u hu).2
    refine ⟨(hpf u hu).1, hu1, ?_, ?_⟩ <;> rw [hu1] <;> decide

/-- C3 as stated fails: on `detourMap` with the seed (0,0) and the default
parameters, region growing labels the bin (0,2) FREE although its shortest
path to the seed, which is the path (0,0), (0,1), (0,2) and no other, crosses
the bin (0,1), which is labeled OCCUPIED. The growth reached (0,2) around it,
through (1,0), (1,1) and (1,2). -/
theorem regionGrowing_shortest_path_blocked :
    ∃ grown, regionGrowing Params.new Irregularity.range [⟨0, 0⟩] detourMap = some grown ∧
      grown.label ⟨0, 2⟩ = FREE ∧ grown.label ⟨0, 1⟩ = OCCUPIED ∧
      PathFromSeed 4 3 [⟨0, 0⟩] ⟨0, 2⟩ [⟨0, 2⟩, ⟨0, 1⟩, ⟨0, 0⟩] ∧
      ∀ q, PathFromSeed 4 3 [⟨0, 0⟩] ⟨0, 2⟩ q →
        3 ≤ q.length ∧ (q.length = 3 → q = [⟨0, 2⟩, ⟨0, 1⟩, ⟨0, 0⟩]) := by
  have hrun : (regionGrowing Params.new Irregularity.range [⟨0, 0⟩] detourMap).map
      (fun g => (g.label ⟨0, 2⟩, g.label ⟨0, 1⟩)) = some (FREE, OCCUPIED) := by
    with_unfolding_all decide
  cases hres : regionGrowing Params.new Irregularity.range [⟨0, 0⟩] detourMap with
  | none => rw [hres] at hrun; simp at hrun
  | some grown =>
    rw [hres] at hrun
    simp only [Option.map_some', Option.some.injEq, Prod.mk.injEq] at hrun
    refine ⟨grown, rfl, hrun.1, hrun.2, ?_, ?_⟩
    · refine ⟨rfl, ⟨⟨0, 0⟩, by simp, rfl⟩, ?_⟩
      unfold IsPath
      rw [List.chain'_cons, List.chain'_cons]
      exact ⟨by decide, by decide, List.chain'_singleton _⟩
    · intro q hq
      obtain ⟨hhead, ⟨sd, hsd, hlast⟩, hchain⟩ := hq
      rw [List.mem_singleton] at hsd
      subst hsd
      unfold IsPath at hchain
      have hmid : ∀ y ∈ neighbours 4 3 ⟨0, 0⟩, (⟨0, 2⟩ : PolarMapSeed) ∈ neighbours 4 3 y →
          y = ⟨0, 1⟩ := by decide
      have hdirect : (⟨0, 2⟩ : PolarMapSeed) ∉ neighbours 4 3 ⟨0, 0⟩ := by decide
      match q, hhead, hlast, hchain with
      | [], hhead, _, _ => simp at hhead
      | [x], hhead, hlast, _ =>
        simp only [List.head?_cons, Option.some.injEq] at hhead
        simp only [List.getLast?_singleton, Option.some.injEq] at hlast
        rw [hhead] at hlast
        exact absurd hlast (by decide)
      | [x, y], hhead, hlast, hchain =>
        simp only [List.head?_cons, Option.some.injEq] at hhead
        simp only [List.getLast?_cons_cons, List.getLast?_singleton, Option.some.injEq] at hlast
        subst hhead hlast
        rw [List.chain'_cons] at hchain
        exact absurd hchain.1 hdirect
      | [x, y, z], hhead, hlast, hchain =>
        simp only [List.head?_cons, Option.some.injEq] at hhead
        simp only [List.getLast?_cons_cons, List.getLast?_singleton, Option.some.injEq] at hlast
        subst hhead hlast
        rw [List.chain'_cons, List.chain'_cons] at hchain
        refine ⟨le_refl _, fun _ => ?_⟩
        rw [hmid y hchain.2.1 hchain.1]
      | _ :: _ :: _ :: _ :: _, _, _, _ =>
        refine ⟨by simp, fun h => ?_⟩
        simp at h

/-- The growth on `detourMap` from the seed (0,0): the map comes in unset and
the seed is a bin of the grid. -/
theorem regionGrowing_free_connected_witness :
    ∃ grown, regionGrowing Params.new Irregularity.range [⟨0, 0⟩] detourMap = some grown ∧
      ∀ t, PolarMap.inGrid detourMap.nAng detourMap.nDist t = true → grown.label t = FREE →
        (∃ p, PathFromSeed detourMap.nAng detourMap.nDist [⟨0, 0⟩] t p ∧
          ∀ u ∈ p, PolarMap.inGrid detourMap.nAng detourMap.nDist u = true ∧
            grown.label u = FREE ∧ grown.label u ≠ OCCUPIED ∧ grown.label u ≠ NOT_SET) ∧
        (t ∈ [(⟨0, 0⟩ : PolarMapSeed)] ∨
          locallyTraversable Params.new Irregularity.range (detourMap.bins t.ang t.dist) = true) :=
  regionGrowing_free_connected Params.new Irregularity.range [⟨0, 0⟩] detourMap
    (by
      intro s _
      simp only [PolarMap.label, detourMap]
      split_ifs <;> rfl)
    (by decide)

/-- The count of a fed bin: one more per point, in an `unsigned`. -/
theorem PolarMapBin.feed_n (pts : List (ℚ × ℚ × Int)) :
    ∀ b : PolarMapBin, b.n < 2 ^ 32 → (b.feed pts).n = (b.n + pts.length) % 2 ^ 32 := by
  induction pts with
  | nil =>
    intro b hb
    simp only [PolarMapBin.feed, List.foldl_nil, List.length_nil, Nat.add_zero]
    exact (Nat.mod_eq_of_lt hb).symm
  | cons p pts ih =>
    intro b _
    have h := ih (b.accumulate p.1 p.2.1 p.2.2) (Nat.mod_lt _ (by norm_num))
    simp only [PolarMapBin.feed, List.foldl_cons] at h ⊢
    rw [h]
    simp only [PolarMapBin.accumulate, List.length_cons]
    omega

/-- The height sum of a fed bin. -/
theorem PolarMapBin.feed_sum (pts : List (ℚ × ℚ × Int)) :
    ∀ b : PolarMapBin, (b.feed pts).sum = b.sum + (pts.map fun p => p.1).sum := by
  induction pts with
  | nil =>
    intro b
    simp [PolarMapBin.feed]
  | cons p pts ih =>
    intro b
    have h := ih (b.accumulate p.1 p.2.1 p.2.2)
    simp only [PolarMapBin.feed, List.foldl_cons] at h ⊢
    rw [h]
    simp only [PolarMapBin.accumulate, List.map_cons, List.sum_cons]
    ring

/-- The sum of squared heights of a fed bin. -/
theorem PolarMapBin.feed_sum_sqr (pts : List (ℚ × ℚ × Int)) :
    ∀ b : PolarMapBin,
      (b.feed pts).sum_sqr = b.sum_sqr + (pts.map fun p => p.1 * p.1).sum := by
  induction pts with
  | nil =>
    intro b
    simp [PolarMapBin.feed]
  | cons p pts ih =>
    intro b
    have h := ih (b.accumulate p.1 p.2.1 p.2.2)
    simp only [PolarMapBin.feed, List.foldl_cons] at h ⊢
    rw [h]
    simp only [PolarMapBin.accumulate, List.map_cons, List.sum_cons]
    ring

/-- Expanding the squared deviations from any value `mu`. -/
theorem sum_sq_deviation (mu : ℚ) (pts : List (ℚ × ℚ × Int)) :
    (pts.map fun p => (p.1 - mu) ^ 2).sum =
      (pts.map fun p => p.1 * p.1).sum - 2 * mu * (pts.map fun p => p.1).sum
        + pts.length * mu ^ 2 := by
  induction pts with
  | nil => simp
  | cons p pts ih =>
    simp only [List.map_cons, List.sum_cons, List.length_cons, Nat.cast_add, Nat.cast_one]
    rw [ih]
    ring

/-- C5: a bin that starts empty and is fed `N ≥ 1` points (`N` within the
range of the `unsigned` counter `n`) with heights `h_1..h_N` holds `n = N`, and
its statistics are the mean `avg = (h_1 + ... + h_N)/N` and the population
variance `var = (1/N) * Σ (h_i - avg)^2`, which is `sum_sqr/N - (sum/N)^2`. -/
theorem PolarMapBin.computeStats_mean_variance (pts : List (ℚ × ℚ × Int))
    (hN : 1 ≤ pts.length) (hfit : pts.length < 2 ^ 32) :
    ((PolarMapBin.new.feed pts).computeStats.n = pts.length) ∧
    ((PolarMapBin.new.feed pts).computeStats.avg = (pts.map fun p => p.1).sum / pts.length) ∧
    ((PolarMapBin.new.feed pts).computeStats.var =
      (1 / (pts.length : ℚ)) *
        (pts.map fun p => (p.1 - (PolarMapBin.new.feed pts).computeStats.avg) ^ 2).sum) ∧
    ((PolarMapBin.new.feed pts).computeStats.var =
      (PolarMapBin.new.feed pts).sum_sqr / pts.length -
        ((PolarMapBin.new.feed pts).sum / pts.length) ^ 2) := by
  have hn : (PolarMapBin.new.feed pts).n = pts.length := by
    rw [PolarMapBin.feed_n pts PolarMapBin.new (by simp [PolarMapBin.new])]
    simp only [PolarMapBin.new, Nat.zero_add]
    exact Nat.mod_eq_of_lt hfit
  have hs : (PolarMapBin.new.feed pts).sum = (pts.map fun p => p.1).sum := by
    rw [PolarMapBin.feed_sum]
    norm_num [PolarMapBin.new]
  have hq : (PolarMapBin.new.feed pts).sum_sqr = (pts.map fun p => p.1 * p.1).sum := by
    rw [PolarMapBin.feed_sum_sqr]
    norm_num [PolarMapBin.new]
  have hpos : (pts.length : ℚ) ≠ 0 := by
    have : (0 : ℚ) < pts.length := by exact_mod_cast hN
    exact this.ne'
  have havg : (PolarMapBin.new.feed pts).computeStats.avg
      = (pts.map fun p => p.1).sum / pts.length := by
    simp only [PolarMapBin.computeStats, hn, hs]
  have hvar : (PolarMapBin.new.feed pts).computeStats.var
      = (pts.map fun p => p.1 * p.1).sum / pts.length
        - ((pts.map fun p => p.1).sum / pts.length) ^ 2 := by
    simp only [PolarMapBin.computeStats, hn, hs, hq]
    ring
  refine ⟨hn, havg, ?_, ?_⟩
  · rw [hvar, havg, sum_sq_deviation]
    field_simp
    ring
  · rw [hvar, hs, hq]

/-- Three points of heights 1, 2 and 6 fed to an empty bin. -/
theorem PolarMapBin.computeStats_mean_variance_witness :
    ((PolarMapBin.new.feed [(1, 2, 0), (2, 2, 0), (6, 2, 0)]).computeStats.n
      = [((1 : ℚ), (2 : ℚ), (0 : Int)), (2, 2, 0), (6, 2, 0)].length) ∧
    ((PolarMapBin.new.feed [(1, 2, 0), (2, 2, 0), (6, 2, 0)]).computeStats.avg
      = ([((1 : ℚ), (2 : ℚ), (0 : Int)), (2, 2, 0), (6, 2, 0)].map fun p => p.1).sum
        / [((1 : ℚ), (2 : ℚ), (0 : Int)), (2, 2, 0), (6, 2, 0)].length) ∧
    ((PolarMapBin.new.feed [(1, 2, 0), (2, 2, 0), (6, 2, 0)]).computeStats.var =
      (1 / ([((1 : ℚ), (2 : ℚ), (0 : Int)), (2, 2, 0), (6, 2, 0)].length : ℚ)) *
        ([((1 : ℚ), (2 : ℚ), (0 : Int)), (2, 2, 0), (6, 2, 0)].map fun p =>
          (p.1 - (PolarMapBin.new.feed [(1, 2, 0), (2, 2, 0), (6, 2, 0)]).computeStats.avg)
            ^ 2).sum) ∧
    ((PolarMapBin.new.feed [(1, 2, 0), (2, 2, 0), (6, 2, 0)]).computeStats.var =
      (PolarMapBin.new.feed [(1, 2, 0), (2, 2, 0), (6, 2, 0)]).sum_sqr
          / [((1 : ℚ), (2 : ℚ), (0 : Int)), (2, 2, 0), (6, 2, 0)].length -
        ((PolarMapBin.new.feed [(1, 2, 0), (2, 2, 0), (6, 2, 0)]).sum
          / [((1 : ℚ), (2 : ℚ), (0 : Int)), (2, 2, 0), (6, 2, 0)].length) ^ 2) :=
  PolarMapBin.computeStats_mean_variance [(1, 2, 0), (2, 2, 0), (6, 2, 0)]
    (by decide) (by decide)

/-- C4: a point whose planar distance `d = sqrt(x² + y²)` is strictly greater
than `max_range`, or strictly less than a positive `min_range`, changes no bin
of the polar grid; and with a negative `min_range` a point that is not beyond
`max_range` is never dropped by the range filter, it goes on to the binning
step whatever its distance. -/
theorem processPoint_range_filter (lm : MathLib) (cfg : Params) (m : PolarMap) (p : VPoint) :
    (lm.sqrt (p.x * p.x + p.y * p.y) > cfg.max_range ∨
        (0 < cfg.min_range ∧ lm.sqrt (p.x * p.x + p.y * p.y) < cfg.min_range) →
      processPoint lm cfg m p = m) ∧
    (cfg.min_range < 0 → lm.sqrt (p.x * p.x + p.y * p.y) ≤ cfg.max_range →
      processPoint lm cfg m p =
        binPoint cfg m p.z (lm.sqrt (p.x * p.x + p.y * p.y)) (lm.bearing p.y p.x)) := by
  constructor
  · intro h
    have hdrop : (cfg.min_range ≥ 0 ∧ lm.sqrt (p.x * p.x + p.y * p.y) < cfg.min_range) ∨
        lm.sqrt (p.x * p.x + p.y * p.y) > cfg.max_range := by
      rcases h with h | ⟨h1, h2⟩
      · exact Or.inr h
      · exact Or.inl ⟨h1.le, h2⟩
    simp only [processPoint, if_pos hdrop]
  · intro hneg hmax
    have hkeep : ¬ ((cfg.min_range ≥ 0 ∧ lm.sqrt (p.x * p.x + p.y * p.y) < cfg.min_range) ∨
        lm.sqrt (p.x * p.x + p.y * p.y) > cfg.max_range) := by
      rintro (⟨h1, -⟩ | h)
      · exact absurd hneg (not_lt.mpr h1)
      · exact absurd hmax (not_le.mpr h)
    simp only [processPoint, if_neg hkeep]

/-- The range filter on `detourMap`: with the default parameters the point
(4, 0, 0) at distance 4 is dropped, and with `min_range = -1` the point
(0, 0, 0) at distance 0 goes on to the binning step. -/
theorem processPoint_range_filter_witness :
    processPoint ⟨fun q => if q = 16 then 4 else 0, fun _ _ => 0⟩ Params.new detourMap
        ⟨4, 0, 0, 0⟩ = detourMap ∧
      processPoint ⟨fun q => if q = 16 then 4 else 0, fun _ _ => 0⟩
          { Params.new with min_range := -1 } detourMap ⟨0, 0, 0, 0⟩ =
        binPoint { Params.new with min_range := -1 } detourMap 0 0 0 :=
  ⟨(processPoint_range_filter ⟨fun q => if q = 16 then 4 else 0, fun _ _ => 0⟩ Params.new
      detourMap ⟨4, 0, 0, 0⟩).1
      (Or.inl (by norm_num [Params.new, Params.getDefaultMaxRange])),
    by
      have h := (processPoint_range_filter ⟨fun q => if q = 16 then 4 else 0, fun _ _ => 0⟩
        { Params.new with min_range := -1 } detourMap ⟨0, 0, 0, 0⟩).2
        (by norm_num) (by norm_num [Params.new, Params.getDefaultMaxRange])
      norm_num at h
      exact h⟩

end GroundMap

end but_velodyne

namespace rt_road_detection

/-- The inner loop leaves the dimensions alone and rewrites exactly the
pixels `col..cols-1` of its row, each from its own old value. -/
theorem SampleRoadDetector.colLoop_data (self : SampleRoadDetector) (fa : FloatArith)
    (row cols : Nat) :
    ∀ (k col : Nat) (m : Mat), cols - col = k →
      (self.colLoop fa row cols col m).rows = m.rows ∧
      (self.colLoop fa row cols col m).cols = m.cols ∧
      ∀ r c ch, (self.colLoop fa row cols col m).data r c ch =
        if r = row ∧ ch = 0 ∧ col ≤ c ∧ c < cols then
          pixelValue fa self.hue_min_ self.hue_max_ self.c (m.data r c 0)
        else m.data r c ch := by
  intro k
  induction k with
  | zero =>
    intro col m hk
    have hcol : ¬ col < cols := by omega
    rw [SampleRoadDetector.colLoop, if_neg hcol]
    refine ⟨rfl, rfl, fun r c ch => ?_⟩
    rw [if_neg]
    omega
  | succ k ih =>
    intro col m hk
    have hcol : col < cols := by omega
    rw [SampleRoadDetector.colLoop, if_pos hcol]
    obtain ⟨h1, h2, h3⟩ := ih (col + 1)
      (m.set row col (pixelValue fa self.hue_min_ self.hue_max_ self.c (m.data row col 0)))
      (by omega)
    refine ⟨h1, h2, fun r c ch => ?_⟩
    rw [h3]
    simp only [Mat.set]
    by_cases hr : r = row
    · by_cases hch : ch = 0
      · by_cases hc : c = col
        · subst hr hch hc
          simp [hcol]
        · by_cases hc1 : col + 1 ≤ c ∧ c < cols
          · have hc2 : col ≤ c ∧ c < cols := ⟨by omega, hc1.2⟩
            simp [hr, hch, hc, hc1, hc2]
          · have hc2 : ¬ (col ≤ c ∧ c < cols) := by omega
            simp [hr, hch, hc, hc1, hc2]
      · simp [hch]
    · simp [hr]

/-- The outer loop leaves the dimensions alone and rewrites exactly the pixels
of the rows `row..rows-1`, each from its own old value. -/
theorem SampleRoadDetector.rowLoop_data (self : SampleRoadDetector) (fa : FloatArith)
    (rows : Nat) :
    ∀ (k row : Nat) (m : Mat), rows - row = k →
      (self.rowLoop fa rows row m).rows = m.rows ∧
      (self.rowLoop fa rows row m).cols = m.cols ∧
      ∀ r c ch, (self.rowLoop fa rows row m).data r c ch =
        if (row ≤ r ∧ r < rows) ∧ ch = 0 ∧ c < m.cols then
          pixelValue fa self.hue_min_ self.hue_max_ self.c (m.data r c 0)
        else m.data r c ch := by
  intro k
  induction k with
  | zero =>
    intro row m hk
    have hrow : ¬ row < rows := by omega
    rw [SampleRoadDetector.rowLoop, if_neg hrow]
    refine ⟨rfl, rfl, fun r c ch => ?_⟩
    rw [if_neg]
    omega
  | succ k ih =>
    intro row m hk
    have hrow : row < rows := by omega
    rw [SampleRoadDetector.rowLoop, if_pos hrow]
    obtain ⟨c1, c2, c3⟩ := self.colLoop_data fa row m.cols (m.cols - 0) 0 m rfl
    obtain ⟨h1, h2, h3⟩ := ih (row + 1) (self.colLoop fa row m.cols 0 m) (by omega)
    refine ⟨h1.trans c1, h2.trans c2, fun r c ch => ?_⟩
    rw [h3, c2, c3, c3]
    by_cases hr : r = row
    · subst hr
      have hr1 : ¬ (r + 1 ≤ r ∧ r < rows) := by omega
      by_cases hch : ch = 0
      · by_cases hc : c < m.cols
        · simp [hch, hc, hrow]
        · simp [hch, hc]
      · simp [hch]
    · by_cases hr1 : row + 1 ≤ r ∧ r < rows
      · have hr2 : row ≤ r ∧ r < rows := ⟨by omega, hr1.2⟩
        simp [hr, hr1, hr2]
      · have hr2 : ¬ (row ≤ r ∧ r < rows) := by omega
        simp [hr, hr1, hr2]

/-- A hue outside `[hue_min_, hue_max_]` is mapped to 0, whatever the floating
point arithmetic. -/
theorem pixelValue_outside (fa : FloatArith) (hue_min_ hue_max_ : Int) (c p : Nat)
    (h : (p : Int) < hue_min_ ∨ (p : Int) > hue_max_) :
    pixelValue fa hue_min_ hue_max_ c p = 0 := by
  simp only [pixelValue, if_pos h]

/-- In exact arithmetic the loop body is `maskValue`. -/
theorem pixelValue_exact (hue_min_ hue_max_ : Int) (c p : Nat) :
    pixelValue FloatArith.exact hue_min_ hue_max_ c p = maskValue hue_min_ hue_max_ c p :=
  rfl

/-- For an accepted encoding the two loops of `detect` run on the hue plane, and
the mask they leave holds at every pixel the loop body's value for the hue that
was at that pixel. -/
theorem SampleRoadDetector.preBlurMask_data (self : SampleRoadDetector) (fa : FloatArith)
    (cv : OpenCV) (inp : CvImage) (henc : inp.encoding = "rgb8" ∨ inp.encoding = "bgr8") :
    ∃ hue mask, hueOf cv inp = some hue ∧ self.preBlurMask fa cv inp = some mask ∧
      ∀ row col, row < hue.rows → col < hue.cols →
        mask.data row col 0 =
          pixelValue fa self.hue_min_ self.hue_max_ self.c (hue.data row col 0) := by
  have hsome : ∃ hue, hueOf cv inp = some hue := by
    unfold hueOf
    rcases henc with h | h
    · exact ⟨_, if_pos h⟩
    · by_cases h1 : inp.encoding = "rgb8"
      · exact ⟨_, if_pos h1⟩
      · rw [if_neg h1, if_pos h]
        exact ⟨_, rfl⟩
  obtain ⟨hue, hhue⟩ := hsome
  refine ⟨hue, self.rowLoop fa hue.rows 0 hue, hhue, ?_, ?_⟩
  · simp [SampleRoadDetector.preBlurMask, hhue]
  · intro row col hrow hcol
    obtain ⟨-, -, h3⟩ := self.rowLoop_data fa hue.rows (hue.rows - 0) 0 hue rfl
    rw [h3, if_pos ⟨⟨Nat.zero_le _, hrow⟩, rfl, hcol⟩]

/-- C6: `detect` thresholds each pixel on its hue. For input images of encoding
`rgb8` or `bgr8`, the mask before the median blur is 0 at every pixel whose hue
is below `hue_min_` or above `hue_max_`, and its value at a pixel depends only
on that pixel's hue and on `hue_min_` and `hue_max_`: two pixels of the same
hue, at any positions of any two accepted images, get the same value from any
two detectors with the same two thresholds. -/
theorem SampleRoadDetector.preBlurMask_own_hue (fa : FloatArith)
    (self other : SampleRoadDetector) (cv cv2 : OpenCV) (inp inp2 : CvImage)
    (henc : inp.encoding = "rgb8" ∨ inp.encoding = "bgr8")
    (henc2 : inp2.encoding = "rgb8" ∨ inp2.encoding = "bgr8")
    (hmin : other.hue_min_ = self.hue_min_) (hmax : other.hue_max_ = self.hue_max_) :
    ∃ hue mask hue2 mask2,
      hueOf cv inp = some hue ∧ self.preBlurMask fa cv inp = some mask ∧
      hueOf cv2 inp2 = some hue2 ∧ other.preBlurMask fa cv2 inp2 = some mask2 ∧
      (∀ row col, row < hue.rows → col < hue.cols →
        ((hue.data row col 0 : Nat) : Int) < self.hue_min_ ∨
            ((hue.data row col 0 : Nat) : Int) > self.hue_max_ →
          mask.data row col 0 = 0) ∧
      (∀ row col row2 col2, row < hue.rows → col < hue.cols →
        row2 < hue2.rows → col2 < hue2.cols →
        hue.data row col 0 = hue2.data row2 col2 0 →
          mask.data row col 0 = mask2.data row2 col2 0) := by
  obtain ⟨hue, mask, h1, h2, h3⟩ := self.preBlurMask_data fa cv inp henc
  obtain ⟨hue2, mask2, k1, k2, k3⟩ := other.preBlurMask_data fa cv2 inp2 henc2
  have hc : other.c = self.c := by
    simp only [SampleRoadDetector.c, hmin, hmax]
  refine ⟨hue, mask, hue2, mask2, h1, h2, k1, k2, ?_, ?_⟩
  · intro row col hrow hcol hout
    rw [h3 row col hrow hcol]
    exact pixelValue_outside fa _ _ _ _ hout
  · intro row col row2 col2 hrow hcol hrow2 hcol2 heq
    rw [h3 row col hrow hcol, k3 row2 col2 hrow2 hcol2, hmin, hmax, hc, heq]

/-- The thresholding on the two example images, whose hues 40, 70 and 90 lie
inside and whose hue 120 lies outside the interval `[0, 100]`, by two detectors
that differ in the blur kernel only. -/
theorem SampleRoadDetector.preBlurMask_own_hue_witness :
    ∃ hue mask hue2 mask2,
      hueOf plainCv hueImageA = some hue ∧
      (SampleRoadDetector.new 0 100 3).preBlurMask FloatArith.exact plainCv hueImageA
        = some mask ∧
      hueOf plainCv hueImageB = some hue2 ∧
      (SampleRoadDetector.new 0 100 5).preBlurMask FloatArith.exact plainCv hueImageB
        = some mask2 ∧
      (∀ row col, row < hue.rows → col < hue.cols →
        ((hue.data row col 0 : Nat) : Int) < (SampleRoadDetector.new 0 100 3).hue_min_ ∨
            ((hue.data row col 0 : Nat) : Int) > (SampleRoadDetector.new 0 100 3).hue_max_ →
          mask.data row col 0 = 0) ∧
      (∀ row col row2 col2, row < hue.rows → col < hue.cols →
        row2 < hue2.rows → col2 < hue2.cols →
        hue.data row col 0 = hue2.data row2 col2 0 →
          mask.data row col 0 = mask2.data row2 col2 0) :=
  SampleRoadDetector.preBlurMask_own_hue FloatArith.exact (SampleRoadDetector.new 0 100 3)
    (SampleRoadDetector.new 0 100 5) plainCv plainCv hueImageA hueImageB
    (Or.inl rfl) (Or.inr rfl) rfl rfl

/-- C9: `detect` returns false exactly when the encoding of the input is
neither `rgb8` nor `bgr8`; when it returns false the output object is
unchanged, and when it returns true the output's encoding is `MONO8` and its
header is the input's header. -/
theorem SampleRoadDetector.detect_result (self : SampleRoadDetector) (fa : FloatArith)
    (cv : OpenCV) (inp out : CvImage) :
    ((self.detect fa cv inp out).1 = false ↔
      (inp.encoding ≠ "rgb8" ∧ inp.encoding ≠ "bgr8")) ∧
    ((self.detect fa cv inp out).1 = false → (self.detect fa cv inp out).2 = out) ∧
    ((self.detect fa cv inp out).1 = true →
      (self.detect fa cv inp out).2.encoding = MONO8 ∧
        (self.detect fa cv inp out).2.header = inp.header) := by
  unfold SampleRoadDetector.detect SampleRoadDetector.preBlurMask hueOf
  by_cases h1 : inp.encoding = "rgb8"
  · simp [h1]
  · by_cases h2 : inp.encoding = "bgr8"
    · simp [h1, h2]
    · simp [h1, h2]

/-- C7: with `hue_min_ = 50` and `hue_max_ = 100` the value `c` computed by
`detect` is 25, which is neither the midpoint 75 of the accepted hue interval
nor inside the interval. -/
theorem SampleRoadDetector.c_not_midpoint :
    (SampleRoadDetector.new 50 100 3).c = 25 ∧
      ((SampleRoadDetector.new 50 100 3).c : Int) ≠ (50 + 100) / 2 ∧
      ¬ ((50 : Int) ≤ (SampleRoadDetector.new 50 100 3).c ∧
          ((SampleRoadDetector.new 50 100 3).c : Int) ≤ 100) := by
  decide

end rt_road_detection
